import Mathlib

/-!
Shallow embedding of the download processor of the apprenticeVr repository
(src/src/main/services/download/downloadProcessor.ts), together with proofs
about its behaviour.  Machine integers do not overflow in the modelled code
(byte counts are plain JavaScript numbers used as counters), so Nat is used
throughout.
-/

/-- Download status enumeration (shared types, DownloadStatus). -/
inductive DStatus
  | Queued
  | Downloading
  | Paused
  | Cancelled
  | Error
  | Completed
  | Extracting
  deriving DecidableEq, Repr

/-- The fields of a queue item (shared types, DownloadItem) that the
download processor reads or writes. -/
structure Item where
  status : DStatus
  progress : Nat
  error : Option String
  pid : Option Nat
  speed : Option String
  eta : Option String
  extractProgress : Option Nat
  deriving DecidableEq, Repr

/-- A partial update of an item, as passed to QueueManager.updateItem.
An outer none means the field is absent from the update object; an inner
value carries the new content, where for optional fields the new content
may itself be none (an explicitly undefined property), which clears the
stored value. -/
structure ItemPatch where
  status : Option DStatus := none
  progress : Option Nat := none
  error : Option (Option String) := none
  speed : Option (Option String) := none
  eta : Option (Option String) := none
  pid : Option (Option Nat) := none
  extractProgress : Option (Option Nat) := none
  deriving DecidableEq, Repr

/-- Modelled from the spec: QueueManager.updateItem
(src/main/services/download/queueManager.ts is not under src/) applies each
field present in the partial update to the stored item, an explicitly
undefined field clearing the stored value, and reports whether an item was
found and updated. -/
def applyPatch (it : Item) (p : ItemPatch) : Item :=
  { status := p.status.getD it.status
    progress := p.progress.getD it.progress
    error := p.error.getD it.error
    speed := p.speed.getD it.speed
    eta := p.eta.getD it.eta
    pid := p.pid.getD it.pid
    extractProgress := p.extractProgress.getD it.extractProgress }

/-- Modelled from the spec: QueueManager.updateItem on the single item key
under consideration; the queue holds at most the one item. -/
def updateItem (q : Option Item) (p : ItemPatch) : Option Item × Bool :=
  match q with
  | some it => (some (applyPatch it p), true)
  | none => (none, false)

/-- The update object built by DownloadProcessor.updateItemStatus
(downloadProcessor.ts lines 47 to 66): status, progress, error, speed and
eta are always present (possibly as undefined, clearing the field);
extractProgress is present when given, otherwise it is included as
undefined unless the status is Extracting or Completed. -/
def statusPatch (status : DStatus) (progress : Nat) (error : Option String)
    (speed eta : Option String) (extractProgress : Option Nat) : ItemPatch :=
  { status := some status
    progress := some progress
    error := some error
    speed := some speed
    eta := some eta
    extractProgress :=
      match extractProgress with
      | some v => some (some v)
      | none =>
        if status = DStatus.Extracting ∨ status = DStatus.Completed then none
        else some none }

/-- DownloadProcessor.updateItemStatus restricted to the arguments the
modelled call sites use (speed, eta and extractProgress omitted; the code
formats speed and ETA from floating point values, which no claim depends
on). -/
def updateItemStatus (q : Option Item) (status : DStatus) (progress : Nat)
    (error : Option String) : Option Item :=
  (updateItem q (statusPatch status progress error none none none)).1

/-- The activeDownloads registry: item key paired with an identifier of the
registered download controller (the controller closure itself carries no
data the claims inspect beyond its identity). -/
abbrev Registry : Type := List (String × Nat)

/-- Map.has on the registry. -/
def regHas (k : String) (r : Registry) : Bool :=
  List.any r (fun e => e.1 = k)

/-- Map.delete on the registry. -/
def regDelete (k : String) (r : Registry) : Registry :=
  List.filter (fun e => ¬ e.1 = k) r

/-- Map.set on the registry: replaces any existing entry for the key. -/
def regSet (k : String) (v : Nat) (r : Registry) : Registry :=
  (k, v) :: regDelete k r

/-- The finalStatus argument of cancelDownload has the literal type
Cancelled or Error. -/
inductive FinalStatus
  | cancelled
  | error
  deriving DecidableEq, Repr

def FinalStatus.toDStatus : FinalStatus → DStatus
  | FinalStatus.cancelled => DStatus.Cancelled
  | FinalStatus.error => DStatus.Error

/-- JavaScript a or-else b for an optional error message: undefined and the
empty string are falsy, so errorMsg falls through to the stored error. -/
def jsOrStr (a b : Option String) : Option String :=
  match a with
  | some s => if s = "" then b else some s
  | none => b

/-- The partial update built by cancelDownload (lines 100 to 115): pid is
cleared; the status is set to finalStatus unless the item is already in
Error and the final status is Cancelled; Cancelled resets progress to 0;
Error sets the error message to errorMsg or keeps the stored one, while any
other final status clears the error. -/
def cancelPatch (it : Item) (fs : FinalStatus) (errorMsg : Option String) :
    ItemPatch :=
  { pid := some none
    status :=
      if it.status = DStatus.Error ∧ fs = FinalStatus.cancelled then none
      else some fs.toDStatus
    progress := if fs = FinalStatus.cancelled then some 0 else none
    error := some (match fs with
      | FinalStatus.error => jsOrStr errorMsg it.error
      | FinalStatus.cancelled => none) }

/-- The queue side of cancelDownload: the terminal update applied to the
item when it is found in the queue (lines 101 to 127). -/
def cancelItemUpdate (fs : FinalStatus) (errorMsg : Option String)
    (q : Option Item) : Option Item :=
  match q with
  | some it => (updateItem (some it) (cancelPatch it fs errorMsg)).1
  | none => none

/-- DownloadProcessor.cancelDownload (lines 68 to 129) acting on the
registry and the queue: when a controller is registered for the key, its
cancel closure is invoked (flipping the shared token, an effect the copy
model receives through its cancellation oracle), the mount process is
killed, and the entry is deleted; in every case the terminal item update is
then applied. -/
def cancelDownload (k : String) (fs : FinalStatus) (errorMsg : Option String)
    (reg : Registry) (q : Option Item) : Registry × Option Item :=
  let regA := if regHas k reg then regDelete k reg else reg
  (regA, cancelItemUpdate fs errorMsg q)

theorem regHas_regDelete (k : String) (r : Registry) :
    regHas k (regDelete k r) = false := by
  induction r with
  | nil => rfl
  | cons e rest ih =>
    by_cases h : e.1 = k
    · simpa [regDelete, List.filter, h] using ih
    · simp only [regDelete, regHas, List.filter, List.any, h] at ih ⊢
      simpa [h] using ih

theorem jsOrStr_idem (a b : Option String) :
    jsOrStr a (jsOrStr a b) = jsOrStr a b := by
  cases a with
  | none => rfl
  | some s =>
    by_cases h : s = "" <;> simp [jsOrStr, h]

theorem cancelItemUpdate_idem (fs : FinalStatus) (errorMsg : Option String)
    (q : Option Item) :
    cancelItemUpdate fs errorMsg (cancelItemUpdate fs errorMsg q) =
      cancelItemUpdate fs errorMsg q := by
  cases q with
  | none => rfl
  | some it =>
    cases it with
    | mk st pr er pid sp eta ep =>
      cases fs with
      | cancelled =>
        by_cases hE : st = DStatus.Error <;>
          simp [cancelItemUpdate, updateItem, applyPatch, cancelPatch, hE,
            FinalStatus.toDStatus]
      | error =>
        simp [cancelItemUpdate, updateItem, applyPatch, cancelPatch,
          jsOrStr_idem, FinalStatus.toDStatus]

/-- C7: cancellation is idempotent: a second cancelDownload with the same
arguments changes neither the registry nor the item state beyond the first
call, and the registry entry for the key is absent after the first call. -/
theorem c7_cancel_idempotent (k : String) (fs : FinalStatus)
    (errorMsg : Option String) (reg : Registry) (q : Option Item) :
    (cancelDownload k fs errorMsg
        (cancelDownload k fs errorMsg reg q).1
        (cancelDownload k fs errorMsg reg q).2) =
      cancelDownload k fs errorMsg reg q ∧
    regHas k (cancelDownload k fs errorMsg reg q).1 = false := by
  have habs : ∀ r : Registry,
      regHas k (if regHas k r then regDelete k r else r) = false := by
    intro r
    by_cases h : regHas k r = true
    · simp [h, regHas_regDelete]
    · simp only [Bool.not_eq_true] at h
      simp [h]
  refine ⟨?_, habs reg⟩
  simp [cancelDownload, habs, cancelItemUpdate_idem]

/-- C4: the terminal update of cancelDownload: Cancelled resets progress to
0 and clears the error; Error sets the message when one is provided and
non-empty and preserves the stored one otherwise, and always leaves the
item in Error; an item already in Error is not downgraded to Cancelled. -/
theorem c4_cancel_terminal_update (k : String) (reg : Registry) (it : Item)
    (errorMsg : Option String) (s : String) (hs : s ≠ "") :
    ((cancelDownload k FinalStatus.cancelled errorMsg reg (some it)).2.map
        (fun j => j.progress) = some 0) ∧
    ((cancelDownload k FinalStatus.cancelled errorMsg reg (some it)).2.map
        (fun j => j.error) = some none) ∧
    (it.status = DStatus.Error →
      (cancelDownload k FinalStatus.cancelled errorMsg reg (some it)).2.map
        (fun j => j.status) = some DStatus.Error) ∧
    ((cancelDownload k FinalStatus.error (some s) reg (some it)).2.map
        (fun j => j.error) = some (some s)) ∧
    ((cancelDownload k FinalStatus.error none reg (some it)).2.map
        (fun j => j.error) = some it.error) ∧
    ((cancelDownload k FinalStatus.error errorMsg reg (some it)).2.map
        (fun j => j.status) = some DStatus.Error) := by
  refine ⟨?_, ?_, ?_, ?_, ?_, ?_⟩
  · simp [cancelDownload, cancelItemUpdate, updateItem, applyPatch, cancelPatch,
      FinalStatus.toDStatus]
  · simp [cancelDownload, cancelItemUpdate, updateItem, applyPatch, cancelPatch,
      FinalStatus.toDStatus]
  · intro hE
    simp [cancelDownload, cancelItemUpdate, updateItem, applyPatch,
      cancelPatch, hE, FinalStatus.toDStatus]
  · simp [cancelDownload, cancelItemUpdate, updateItem, applyPatch,
      cancelPatch, jsOrStr, hs, FinalStatus.toDStatus]
  · simp [cancelDownload, cancelItemUpdate, updateItem, applyPatch,
      cancelPatch, jsOrStr, FinalStatus.toDStatus]
  · simp [cancelDownload, cancelItemUpdate, updateItem, applyPatch, cancelPatch,
      FinalStatus.toDStatus]

/-- Witness for C4 at a concrete item and message. -/
theorem c4_cancel_terminal_update_witness :
    ("boom" : String) ≠ "" ∧
    ((cancelDownload "Game-A" FinalStatus.cancelled none []
        (some ⟨DStatus.Downloading, 40, some "old", some 7, none, none, none⟩)).2.map
        (fun j => j.progress) = some 0) := by
  have h : ("boom" : String) ≠ "" := by decide
  exact ⟨h, (c4_cancel_terminal_update "Game-A" []
    ⟨DStatus.Downloading, 40, some "old", some 7, none, none, none⟩
    none "boom" h).1⟩

/-- C9: with no registry entry for the key, cancelDownload leaves the
registry unchanged and still applies exactly the same terminal item update
as for an active download: pid cleared, status set to the final status
subject to the Error-sticky rule, progress and error handled identically. -/
theorem c9_cancel_without_registry_entry (k : String) (fs : FinalStatus)
    (errorMsg : Option String) (reg reg2 : Registry) (q : Option Item)
    (h : regHas k reg = false) :
    (cancelDownload k fs errorMsg reg q).1 = reg ∧
    (cancelDownload k fs errorMsg reg q).2 = cancelItemUpdate fs errorMsg q ∧
    (cancelDownload k fs errorMsg reg q).2 =
      (cancelDownload k fs errorMsg reg2 q).2 ∧
    ((cancelDownload k fs errorMsg reg q).2.map (fun j => j.pid) =
      q.map (fun _ => (none : Option Nat))) ∧
    (∀ it, q = some it → ¬ (it.status = DStatus.Error ∧ fs = FinalStatus.cancelled) →
      (cancelDownload k fs errorMsg reg q).2.map (fun j => j.status) =
        some fs.toDStatus) := by
  refine ⟨by simp [cancelDownload, h], rfl, rfl, ?_, ?_⟩
  · cases q with
    | none => rfl
    | some it =>
      simp [cancelDownload, cancelItemUpdate, updateItem, applyPatch, cancelPatch]
  · intro it hq hns
    subst hq
    simp [cancelDownload, cancelItemUpdate, updateItem, applyPatch,
      cancelPatch, hns]

/-- Witness for C9 at a concrete state with an empty registry. -/
theorem c9_cancel_without_registry_entry_witness :
    regHas "Game-A" [] = false ∧
    (cancelDownload "Game-A" FinalStatus.cancelled none []
      (some ⟨DStatus.Downloading, 55, none, some 3, none, none, none⟩)).1 = [] := by
  exact ⟨rfl, (c9_cancel_without_registry_entry "Game-A" FinalStatus.cancelled
    none [] [("other", 1)]
    (some ⟨DStatus.Downloading, 55, none, some 3, none, none, none⟩) rfl).1⟩

/-- The per-file resume offset (startMountBasedDownload lines 464 to 474):
the size of the destination file when the stat succeeds, 0 when the file
does not exist. -/
def resumeStartOffset (destStat : Option Nat) : Nat :=
  match destStat with
  | some s => s
  | none => 0

/-- The flags with which copyFileWithProgress opens the destination
(line 739): append when the start offset is positive, otherwise create or
overwrite. -/
def writeFlags (startOffset : Nat) : String :=
  if 0 < startOffset then "a" else "w"

/-- The byte sequence the read stream delivers when the source is opened
with the given start offset (line 738). -/
def readBytes (source : List Nat) (startOffset : Nat) : List Nat :=
  List.drop startOffset source

/-- The destination content after the copy: the written bytes are appended
to the existing content in append mode and replace it in overwrite mode. -/
def destAfterCopy (existing : List Nat) (startOffset : Nat)
    (written : List Nat) : List Nat :=
  if writeFlags startOffset = "a" then existing ++ written else written

/-- The open mode in the words of the specification, for comparison with
the code: append exactly when the destination file exists. -/
def specOpenFlags (destStat : Option Nat) : String :=
  if destStat.isSome then "a" else "w"

/-- Outcome of the streamed copy of one file: the bytes written to the
destination during this attempt, whether the streams were destroyed
mid-copy, and whether the write stream finished normally. -/
structure CopyOutcome where
  written : List Nat
  destroyed : Bool
  finished : Bool
  deriving DecidableEq, Repr

/-- The data-event loop of copyFileWithProgress (lines 746 to 776): the
source bytes past the start offset arrive as a list of chunks; on each
chunk the cancellation token is consulted first, and when it has tripped
both streams are destroyed and nothing further is written; otherwise the
chunk is counted and piped through to the destination.  When all chunks
have been delivered the end event fires, the write stream is ended and
finishes. -/
def copyChunks (cancel : Nat → Bool) : Nat → List (List Nat) → CopyOutcome
  | _, [] => ⟨[], false, true⟩
  | i, c :: rest =>
    if cancel i then ⟨[], true, false⟩
    else
      let o := copyChunks cancel (i + 1) rest
      ⟨c ++ o.written, o.destroyed, o.finished⟩

/-- How the promise of copyFileWithProgress settles. -/
inductive CopyResult
  | resolved (bytes : Nat)
  | rejected
  deriving DecidableEq, Repr

/-- When the write stream finishes the promise resolves with the byte count
copied this attempt (line 783); after a mid-copy destroy the pipe writes
the in-flight chunk to the destroyed destination, which raises a stream
error on the write stream, and the error handler rejects the promise
(lines 791 to 794). -/
def copyResult (o : CopyOutcome) : CopyResult :=
  if o.finished then CopyResult.resolved o.written.length else CopyResult.rejected

theorem copyChunks_no_cancel (cancel : Nat → Bool)
    (hnc : ∀ i, cancel i = false) :
    ∀ (n : Nat) (chunks : List (List Nat)),
      copyChunks cancel n chunks = ⟨chunks.flatten, false, true⟩ := by
  intro n chunks
  induction chunks generalizing n with
  | nil => rfl
  | cons c rest ih =>
    simp [copyChunks, hnc n, ih (n + 1)]

theorem copyChunks_cancel_at (cancel : Nat → Bool) :
    ∀ (kk n : Nat) (chunks : List (List Nat)),
      kk < chunks.length →
      (∀ j, j < kk → cancel (n + j) = false) →
      cancel (n + kk) = true →
      copyChunks cancel n chunks = ⟨(chunks.take kk).flatten, true, false⟩ := by
  intro kk
  induction kk with
  | zero =>
    intro n chunks hlen _ hck
    cases chunks with
    | nil => simp at hlen
    | cons c rest => simp [copyChunks, Nat.add_zero] at hck ⊢; simp [hck]
  | succ m ih =>
    intro n chunks hlen hbefore hck
    cases chunks with
    | nil => simp at hlen
    | cons c rest =>
      have h0 : cancel n = false := by
        have := hbefore 0 (Nat.succ_pos m)
        simpa using this
      have hrest : copyChunks cancel (n + 1) rest = ⟨(rest.take m).flatten, true, false⟩ := by
        refine ih (n + 1) rest ?_ ?_ ?_
        · simpa using Nat.lt_of_succ_lt_succ hlen
        · intro j hj
          have := hbefore (j + 1) (Nat.succ_lt_succ hj)
          simpa [Nat.add_assoc, Nat.add_comm 1 j] using this
        · simpa [Nat.add_assoc, Nat.add_comm 1 m] using hck
      simp [copyChunks, h0, hrest]

/-- C1 counterexample: a destination file that exists with size 0 is opened
with flags w (create or overwrite), not in append mode as the claim states
for every existing destination. -/
theorem c1_resume_counterexample :
    resumeStartOffset (some 0) = 0 ∧
    writeFlags (resumeStartOffset (some 0)) = "w" ∧
    specOpenFlags (some 0) = "a" ∧
    writeFlags (resumeStartOffset (some 0)) ≠ specOpenFlags (some 0) := by
  refine ⟨rfl, rfl, rfl, ?_⟩
  decide

/-- C1 amended: before copying, the destination is stat-ed; when it exists
its size S becomes the start offset, the source is read from S, and the
destination is opened in append mode when S is positive and in
create-or-overwrite mode when S is 0 or the file is absent; an uncancelled
resumed copy of a destination holding a prefix of the source yields exactly
the full source content, never re-copying the bytes already present. -/
theorem c1_resume_amended (source existing : List Nat)
    (chunks : List (List Nat)) (cancel : Nat → Bool)
    (hnc : ∀ i, cancel i = false)
    (hpre : existing = List.take existing.length source)
    (hchunks : chunks.flatten =
      readBytes source (resumeStartOffset (some existing.length))) :
    (copyChunks cancel 0 chunks).finished = true ∧
    (copyChunks cancel 0 chunks).destroyed = false ∧
    (copyChunks cancel 0 chunks).written = List.drop existing.length source ∧
    destAfterCopy existing (resumeStartOffset (some existing.length))
      (copyChunks cancel 0 chunks).written = source ∧
    (0 < existing.length →
      writeFlags (resumeStartOffset (some existing.length)) = "a") ∧
    resumeStartOffset none = 0 ∧
    writeFlags 0 = "w" ∧
    (∀ (e2 src2 : List Nat) (ch2 : List (List Nat)),
      ch2.flatten = readBytes src2 (resumeStartOffset none) →
      destAfterCopy e2 (resumeStartOffset none)
        (copyChunks cancel 0 ch2).written = src2) := by
  have hrun : copyChunks cancel 0 chunks = ⟨chunks.flatten, false, true⟩ :=
    copyChunks_no_cancel cancel hnc 0 chunks
  have hw : (copyChunks cancel 0 chunks).written = List.drop existing.length source := by
    rw [hrun]
    simpa [readBytes, resumeStartOffset] using hchunks
  refine ⟨by rw [hrun], by rw [hrun], hw, ?_, ?_, rfl, rfl, ?_⟩
  · rw [hw]
    by_cases h0 : existing.length = 0
    · have he : existing = [] := List.eq_nil_of_length_eq_zero h0
      simp [destAfterCopy, writeFlags, resumeStartOffset, he]
    · have hpos : 0 < existing.length := Nat.pos_of_ne_zero h0
      have : writeFlags (resumeStartOffset (some existing.length)) = "a" := by
        simp [writeFlags, resumeStartOffset, hpos]
      simp only [destAfterCopy, this, if_pos rfl]
      calc existing ++ List.drop existing.length source
          = List.take existing.length source ++ List.drop existing.length source := by
            rw [← hpre]
        _ = source := List.take_append_drop _ _
  · intro hpos
    simp [writeFlags, resumeStartOffset, hpos]
  · intro e2 src2 ch2 hch2
    have hrun2 : copyChunks cancel 0 ch2 = ⟨ch2.flatten, false, true⟩ :=
      copyChunks_no_cancel cancel hnc 0 ch2
    rw [hrun2]
    simp only [destAfterCopy, writeFlags, resumeStartOffset]
    simpa [readBytes] using hch2

/-- Witness for the amended C1: resuming a 3-byte prefix of a 5-byte source
copies exactly the remaining 2 bytes and completes the file. -/
theorem c1_resume_amended_witness :
    (([10, 11, 12] : List Nat) = List.take 3 [10, 11, 12, 13, 14]) ∧
    (([[13], [14]] : List (List Nat)).flatten =
      readBytes [10, 11, 12, 13, 14] (resumeStartOffset (some 3))) ∧
    destAfterCopy [10, 11, 12] (resumeStartOffset (some 3))
      (copyChunks (fun _ => false) 0 [[13], [14]]).written =
        [10, 11, 12, 13, 14] := by
  refine ⟨by decide, by decide, ?_⟩
  have h := c1_resume_amended [10, 11, 12, 13, 14] [10, 11, 12]
    [[13], [14]] (fun _ => false) (fun _ => rfl) (by decide) (by decide)
  exact h.2.2.2.1

/-- A file descriptor produced by enumeration: path relative to the mount
root and declared size in bytes. -/
structure FileDesc where
  relativePath : String
  size : Nat
  deriving DecidableEq, Repr

/-- The environment of one startMountBasedDownload attempt: outcomes of the
external world (configuration, dependency lookup, disk space, mount
polling, mount listing, enumeration, destination stats) and the observable
effects of concurrent cancellation on the shared token and the per-file
copy promises. -/
structure Env where
  configOk : Bool
  rcloneOk : Bool
  availableSpace : Option Nat
  gameSizeBytes : Nat
  readdirOk : Nat → Bool
  pollListing : Nat → List String
  contentsOk : Bool
  mountContents : List String
  files : List FileDesc
  destSize : Nat → Option Nat
  cancelBefore : Nat → Bool
  rejectsFile : Nat → Bool
  rejectMsg : Nat → String
  cancelAfter : Nat → Bool
  attemptId : Nat

/-- The disk-space preflight condition (startDownload lines 164 to 186 and
startMountBasedDownload lines 263 to 274): requiredSpace is twice the
parsed declared size; the attempt is rejected when the available space
could be determined, the required space is positive and the available
space is below it. -/
def preflightRejects (availableSpace : Option Nat) (gameSizeBytes : Nat) : Bool :=
  match availableSpace with
  | some x => decide (0 < gameSizeBytes * 2) && decide (x < gameSizeBytes * 2)
  | none => false

/-- The fixed attempt cap of the mount readiness loop (line 344). -/
def mountPollAttempts : Nat := 10

/-- The fixed wait before each readiness attempt, in milliseconds
(line 345). -/
def mountPollIntervalMs : Nat := 1000

/-- One readiness attempt (lines 346 to 356): the directory listing must
succeed, and any length, including 0, counts as ready. -/
def pollOk (env : Env) (i : Nat) : Bool :=
  env.readdirOk i && decide (0 ≤ (env.pollListing i).length)

/-- Whether any of the capped readiness attempts succeeds. -/
def pollReady (env : Env) : Bool :=
  List.any (List.range mountPollAttempts) (pollOk env)

def pollIterationsAux (env : Env) : List Nat → Nat
  | [] => 0
  | i :: rest => if pollOk env i then 1 else 1 + pollIterationsAux env rest

/-- The number of one-second waits the readiness loop performs: it breaks
right after the first successful listing and otherwise runs to the cap. -/
def pollIterations (env : Env) : Nat :=
  pollIterationsAux env (List.range mountPollAttempts)

/-- Error messages stored by the attempt.  The disk-space message is the
fixed prefix of the interpolated text (the code appends sizes rendered by
floating point formatting, which no claim depends on). -/
def missingConfigMsg : String := "Missing VRP configuration"

def missingRcloneMsg : String := "Rclone dependency not found"

def insufficientSpaceMsg : String := "Insufficient disk space"

def mountTimeoutMsg : String := "Mount failed to become ready within 10 seconds"

def mountAccessMsg : String := "Failed to access mounted directory"

/-- The result value returned to the caller. -/
structure RunResult where
  success : Bool
  startExtraction : Bool
  deriving DecidableEq, Repr

/-- The observable outcome of one attempt: the returned result, the queue
and registry after the attempt, how often the mount teardown (cleanup) ran,
whether the mount process was started, whether registering the controller
replaced an existing registry entry, how many per-file copies resolved, and
the total readiness-poll wait. -/
structure RunOut where
  result : RunResult
  queue : Option Item
  registry : Registry
  teardowns : Nat
  mountStarted : Bool
  overwrote : Bool
  filesCompleted : Nat
  waitedMs : Nat
  deriving DecidableEq, Repr

/-- Overall percentage, Math.round of the ratio abstracted to Nat division
(no claim depends on the rounding mode; a zero total never divides since
JavaScript would produce NaN there, which no claim exercises). -/
def progressPct (copied total : Nat) : Nat :=
  if total = 0 then 0 else (100 * copied) / total

/-- Mutable state threaded through the per-file copy loop. -/
structure LoopState where
  q : Option Item
  reg : Registry
  teardowns : Nat
  completed : Nat
  copied : Nat
  ov : Bool
  waited : Nat

/-- The catch block of startMountBasedDownload (lines 538 to 584): the
status before the catch is read, cleanup runs once, a registered controller
for the key is removed with the pid cleared, and unless the item was
already Cancelled or in Error it is moved to Error with its progress kept
and the message stored (the thrown errors modelled here are not execa
errors with exit code 143). -/
def catchPath (k : String) (msg : String) (reg : Registry) (q : Option Item)
    (teardowns : Nat) (ov : Bool) (completed : Nat) (waited : Nat) : RunOut :=
  let statusBefore := q.map (fun it => it.status)
  let t := teardowns + 1
  let regq : Registry × Option Item :=
    if regHas k reg then (regDelete k reg, (updateItem q { pid := some none }).1)
    else (reg, q)
  let q3 :=
    if ¬ statusBefore = some DStatus.Cancelled ∧ ¬ statusBefore = some DStatus.Error then
      updateItemStatus regq.2 DStatus.Error ((q.map (fun it => it.progress)).getD 0)
        (some msg)
    else regq.2
  ⟨⟨false, false⟩, q3, regq.1, t, true, ov, completed, waited⟩

/-- The branch taken when the loop finishes but the item is missing or no
longer Downloading (lines 518 to 528): cleanup runs, a registered
controller is removed with the pid cleared, and the attempt reports
failure. -/
def finalMismatch (k : String) (s : LoopState) : RunOut :=
  let t := s.teardowns + 1
  let regq : Registry × Option Item :=
    if regHas k s.reg then
      (regDelete k s.reg, (updateItem s.q { pid := some none }).1)
    else (s.reg, s.q)
  ⟨⟨false, false⟩, regq.2, regq.1, t, true, s.ov, s.completed, s.waited⟩

/-- The per-file copy loop of startMountBasedDownload (lines 440 to 537).
Before each file the live item is re-read and the cancellation token
consulted; a missing item, a status other than Downloading or a tripped
token ends the loop with the registry entry removed and no teardown (the
downloadCancelled branch).  A rejected copy promise propagates to the catch
block.  A resolved copy advances the aggregate byte count, reports
progress, and the token is consulted again before the next file.  After the
last file the final item state decides between the success return and the
mismatch branch. -/
def copyLoop (env : Env) (k : String) (totalSize : Nat) :
    Nat → List FileDesc → LoopState → RunOut
  | _, [], s =>
    match s.q with
    | some it =>
      if it.status = DStatus.Downloading then
        ⟨⟨true, true⟩, (updateItem s.q { pid := some none }).1, regDelete k s.reg,
          s.teardowns + 1, true, s.ov, s.completed, s.waited⟩
      else finalMismatch k s
    | none => finalMismatch k s
  | i, f :: rest, s =>
    let itemDownloading : Bool :=
      match s.q with
      | some it => decide (it.status = DStatus.Downloading)
      | none => false
    if ¬ itemDownloading ∨ env.cancelBefore i then
      ⟨⟨false, false⟩, s.q, regDelete k s.reg, s.teardowns, true, s.ov,
        s.completed, s.waited⟩
    else
      let startOffset := (env.destSize i).getD 0
      if env.rejectsFile i then
        catchPath k (env.rejectMsg i) s.reg s.q s.teardowns s.ov s.completed s.waited
      else
        let bytes := f.size - startOffset
        let copied2 := s.copied + bytes
        let q2 := updateItemStatus s.q DStatus.Downloading
          (progressPct copied2 totalSize) none
        if env.cancelAfter i then
          ⟨⟨false, false⟩, q2, regDelete k s.reg, s.teardowns, true, s.ov,
            s.completed, s.waited⟩
        else
          copyLoop env k totalSize (i + 1) rest
            ⟨q2, s.reg, s.teardowns, s.completed + 1, copied2, s.ov, s.waited⟩

/-- DownloadProcessor.startMountBasedDownload (lines 229 to 585) as a
function of the attempt environment, the item key, and the initial registry
and queue: configuration and dependency checks, disk-space preflight,
transition to Downloading, mount start, readiness polling, mount listing
verification, enumeration with aggregate size and resume offsets, the
initial resumed-progress update, controller registration (replacing any
existing entry for the key), and the per-file copy loop. -/
def runMountDownload (env : Env) (k : String) (reg0 : Registry)
    (q0 : Option Item) : RunOut :=
  if ¬ env.configOk then
    ⟨⟨false, false⟩, updateItemStatus q0 DStatus.Error 0 (some missingConfigMsg),
      reg0, 0, false, false, 0, 0⟩
  else if ¬ env.rcloneOk then
    ⟨⟨false, false⟩, updateItemStatus q0 DStatus.Error 0 (some missingRcloneMsg),
      reg0, 0, false, false, 0, 0⟩
  else if preflightRejects env.availableSpace env.gameSizeBytes then
    ⟨⟨false, false⟩, updateItemStatus q0 DStatus.Error 0 (some insufficientSpaceMsg),
      reg0, 1, false, false, 0, 0⟩
  else
    let q1 := updateItemStatus q0 DStatus.Downloading 0 none
    let waited := pollIterations env * mountPollIntervalMs
    if ¬ pollReady env then
      catchPath k mountTimeoutMsg reg0 q1 0 false 0 waited
    else if ¬ env.contentsOk ∨ env.mountContents.isEmpty then
      ⟨⟨false, false⟩, updateItemStatus q1 DStatus.Error 0 (some mountAccessMsg),
        reg0, 1, true, false, 0, waited⟩
    else
      let totalSize := (env.files.map (fun f => f.size)).sum
      let initCopied :=
        ((List.range env.files.length).map (fun i => (env.destSize i).getD 0)).sum
      let q2 :=
        if 0 < initCopied then
          updateItemStatus q1 DStatus.Downloading (progressPct initCopied totalSize)
            none
        else q1
      let ov := regHas k reg0
      let reg1 := regSet k env.attemptId reg0
      copyLoop env k totalSize 0 env.files ⟨q2, reg1, 0, 0, initCopied, ov, waited⟩

/-- Modelled from the spec: the caller of startMountBasedDownload (the
download service driving the queue, not under src/) marks the item
Completed when the attempt signals startExtraction = true. -/
def callerFinalize (r : RunResult) (q : Option Item) : Option Item :=
  if r.startExtraction then (updateItem q { status := some DStatus.Completed }).1
  else q

theorem updateItemStatus_map_status (q : Option Item) (st : DStatus)
    (p : Nat) (e : Option String) :
    (updateItemStatus q st p e).map (fun it => it.status) =
      q.map (fun _ => st) := by
  cases q with
  | none => rfl
  | some it => simp [updateItemStatus, updateItem, applyPatch, statusPatch]

theorem catchPath_result (k : String) (msg : String) (reg : Registry)
    (q : Option Item) (teardowns : Nat) (ov : Bool) (completed : Nat)
    (waited : Nat) :
    (catchPath k msg reg q teardowns ov completed waited).result =
      ⟨false, false⟩ := rfl

theorem copyLoop_mountStarted (env : Env) (k : String) (t : Nat) :
    ∀ (rest : List FileDesc) (i : Nat) (s : LoopState),
      (copyLoop env k t i rest s).mountStarted = true := by
  intro rest
  induction rest with
  | nil =>
    intro i s
    simp only [copyLoop]
    cases s.q with
    | none => simp [finalMismatch]
    | some it =>
      by_cases h : it.status = DStatus.Downloading <;> simp [h, finalMismatch]
  | cons f rest ih =>
    intro i s
    simp only [copyLoop]
    split
    · rfl
    · split
      · simp [catchPath]
      · split
        · rfl
        · exact ih (i + 1) _

theorem pollIterationsAux_all_fail (env : Env) :
    ∀ l : List Nat, (∀ i ∈ l, pollOk env i = false) →
      pollIterationsAux env l = l.length := by
  intro l
  induction l with
  | nil => intro _; rfl
  | cons i rest ih =>
    intro h
    have hi : pollOk env i = false := h i (by simp)
    have hr : pollIterationsAux env rest = rest.length :=
      ih (fun j hj => h j (by simp [hj]))
    simp [pollIterationsAux, hi, hr, Nat.add_comm]

/-- C5: the disk-space preflight rejects an attempt, before any mount is
started, exactly when the determinable available space X and the parsed
declared size Y satisfy X below 2 times Y with Y positive; an
undeterminable size (parsed to 0) or undeterminable space lets the attempt
proceed to the mount. -/
theorem c5_preflight (x y : Nat) (env : Env) (k : String) (reg0 : Registry)
    (q0 : Option Item) (hc : env.configOk = true) (hr : env.rcloneOk = true) :
    (preflightRejects (some x) y = true ↔ (x < 2 * y ∧ 0 < y)) ∧
    preflightRejects none y = false ∧
    preflightRejects env.availableSpace 0 = false ∧
    (preflightRejects env.availableSpace env.gameSizeBytes = true →
      (runMountDownload env k reg0 q0).result = ⟨false, false⟩ ∧
      (runMountDownload env k reg0 q0).mountStarted = false ∧
      (runMountDownload env k reg0 q0).queue.map (fun it => it.status) =
        q0.map (fun _ => DStatus.Error)) ∧
    (preflightRejects env.availableSpace env.gameSizeBytes = false →
      (runMountDownload env k reg0 q0).mountStarted = true) := by
  refine ⟨?_, rfl, ?_, ?_, ?_⟩
  · simp only [preflightRejects, Bool.and_eq_true, decide_eq_true_eq]
    omega
  · cases env.availableSpace with
    | none => rfl
    | some z => simp [preflightRejects]
  · intro hp
    refine ⟨?_, ?_, ?_⟩
    · simp [runMountDownload, hc, hr, hp]
    · simp [runMountDownload, hc, hr, hp]
    · simp [runMountDownload, hc, hr, hp, updateItemStatus_map_status]
  · intro hp
    simp only [runMountDownload]
    rw [if_neg (by simp [hc]), if_neg (by simp [hr]), if_neg (by simp [hp])]
    split
    · rfl
    · split
      · rfl
      · exact copyLoop_mountStarted env k _ env.files 0 _

/-- A fresh queue item used by concrete evaluations. -/
def item0 : Item := ⟨DStatus.Queued, 0, none, none, none, none, none⟩

/-- Concrete environment whose disk-space preflight fails: 5 bytes
available against a declared size of 3 bytes (required 6). -/
def envC5 : Env :=
  { configOk := true, rcloneOk := true, availableSpace := some 5,
    gameSizeBytes := 3, readdirOk := fun _ => true,
    pollListing := fun _ => [], contentsOk := true,
    mountContents := ["game.7z"], files := [⟨"game.7z", 4⟩],
    destSize := fun _ => none, cancelBefore := fun _ => false,
    rejectsFile := fun _ => false, rejectMsg := fun _ => "",
    cancelAfter := fun _ => false, attemptId := 1 }

/-- Witness for C5: the rejecting environment never starts a mount. -/
theorem c5_preflight_witness :
    envC5.configOk = true ∧
    preflightRejects (some 5) 3 = true ∧
    (runMountDownload envC5 "Game-A" [] (some item0)).mountStarted = false := by
  refine ⟨rfl, by decide, ?_⟩
  exact ((c5_preflight 5 3 envC5 "Game-A" [] (some item0) rfl rfl).2.2.2.1
    (by decide)).2.1

/-- C6: when no directory listing succeeds within the cap of 10 attempts at
a 1 second interval, the attempt fails with the mount timeout mapped to an
Error status carrying the timeout message, and the mount teardown runs
exactly once. -/
theorem c6_mount_timeout (env : Env) (k : String) (reg0 : Registry)
    (it0 : Item) (hc : env.configOk = true) (hr : env.rcloneOk = true)
    (hp : preflightRejects env.availableSpace env.gameSizeBytes = false)
    (hpoll : ∀ i, i < mountPollAttempts → env.readdirOk i = false) :
    (runMountDownload env k reg0 (some it0)).result = ⟨false, false⟩ ∧
    (runMountDownload env k reg0 (some it0)).teardowns = 1 ∧
    (runMountDownload env k reg0 (some it0)).queue.map (fun it => it.status) =
      some DStatus.Error ∧
    (runMountDownload env k reg0 (some it0)).queue.map (fun it => it.error) =
      some (some mountTimeoutMsg) ∧
    (runMountDownload env k reg0 (some it0)).waitedMs =
      mountPollAttempts * mountPollIntervalMs ∧
    mountPollAttempts = 10 ∧ mountPollIntervalMs = 1000 := by
  have hok : ∀ i ∈ List.range mountPollAttempts, pollOk env i = false := by
    intro i hi
    have : env.readdirOk i = false := hpoll i (List.mem_range.mp hi)
    simp [pollOk, this]
  have hready : pollReady env = false := by
    simp only [pollReady, List.any_eq_false]
    intro i hi
    simp [hok i hi]
  have hwait : pollIterations env = mountPollAttempts := by
    simpa [pollIterations] using
      pollIterationsAux_all_fail env (List.range mountPollAttempts) hok
  have hrun : runMountDownload env k reg0 (some it0) =
      catchPath k mountTimeoutMsg reg0
        (updateItemStatus (some it0) DStatus.Downloading 0 none) 0 false 0
        (pollIterations env * mountPollIntervalMs) := by
    simp [runMountDownload, hc, hr, hp, hready]
  rw [hrun]
  by_cases hhas : regHas k reg0 = true <;>
    simp [catchPath, hhas, hwait, updateItemStatus, updateItem, applyPatch,
      statusPatch, mountPollAttempts, mountPollIntervalMs]

/-- Concrete environment whose mount never answers a directory listing. -/
def envC6 : Env :=
  { configOk := true, rcloneOk := true, availableSpace := none,
    gameSizeBytes := 7, readdirOk := fun _ => false,
    pollListing := fun _ => [], contentsOk := true,
    mountContents := ["a"], files := [⟨"a", 2⟩],
    destSize := fun _ => none, cancelBefore := fun _ => false,
    rejectsFile := fun _ => false, rejectMsg := fun _ => "",
    cancelAfter := fun _ => false, attemptId := 1 }

/-- Witness for C6 with an environment whose mount never answers. -/
theorem c6_mount_timeout_witness :
    preflightRejects envC6.availableSpace envC6.gameSizeBytes = false ∧
    (runMountDownload envC6 "Game-A" [] (some item0)).teardowns = 1 := by
  refine ⟨rfl, ?_⟩
  exact (c6_mount_timeout envC6 "Game-A" [] item0 rfl rfl rfl
    (fun _ _ => rfl)).2.1

theorem copyLoop_all_resolve (env : Env) (k : String) (t : Nat)
    (hnb : ∀ i, env.cancelBefore i = false)
    (hrj : ∀ i, env.rejectsFile i = false)
    (hna : ∀ i, env.cancelAfter i = false) :
    ∀ (rest : List FileDesc) (i : Nat) (s : LoopState),
      s.q.map (fun j => j.status) = some DStatus.Downloading →
      (copyLoop env k t i rest s).result = ⟨true, true⟩ ∧
      (copyLoop env k t i rest s).filesCompleted = s.completed + rest.length ∧
      (copyLoop env k t i rest s).queue.map (fun j => j.status) =
        some DStatus.Downloading := by
  intro rest
  induction rest with
  | nil =>
    intro i s hmap
    rcases hq : s.q with _ | it
    · rw [hq] at hmap; simp at hmap
    · have hst : it.status = DStatus.Downloading := by
        rw [hq] at hmap; simpa using hmap
      simp [copyLoop, hq, hst, updateItem, applyPatch]
  | cons f rest ih =>
    intro i s hmap
    rcases hq : s.q with _ | it
    · rw [hq] at hmap; simp at hmap
    · have hst : it.status = DStatus.Downloading := by
        rw [hq] at hmap; simpa using hmap
      have hmap2 : (updateItemStatus (some it) DStatus.Downloading
          (progressPct (s.copied + (f.size - (env.destSize i).getD 0)) t)
          none).map (fun j => j.status) = some DStatus.Downloading := by
        rw [updateItemStatus_map_status]; rfl
      have hrec := ih (i + 1)
        ⟨updateItemStatus (some it) DStatus.Downloading
            (progressPct (s.copied + (f.size - (env.destSize i).getD 0)) t) none,
          s.reg, s.teardowns, s.completed + 1,
          s.copied + (f.size - (env.destSize i).getD 0), s.ov, s.waited⟩ hmap2
      have hunfold : copyLoop env k t i (f :: rest) s =
          copyLoop env k t (i + 1) rest
            ⟨updateItemStatus (some it) DStatus.Downloading
                (progressPct (s.copied + (f.size - (env.destSize i).getD 0)) t)
                none,
              s.reg, s.teardowns, s.completed + 1,
              s.copied + (f.size - (env.destSize i).getD 0), s.ov, s.waited⟩ := by
        simp only [copyLoop, hq, hst, hnb i, hrj i, hna i]
        simp
      rw [hunfold]
      refine ⟨hrec.1, ?_, hrec.2.2⟩
      rw [hrec.2.1]
      simp only [List.length_cons]
      omega

theorem callerFinalize_status (r : RunResult) (o : Option Item)
    (hr2 : r.startExtraction = true)
    (ho : (o.map (fun j => j.status)).isSome = true) :
    (callerFinalize r o).map (fun j => j.status) = some DStatus.Completed := by
  rcases o with _ | j
  · simp at ho
  · simp [callerFinalize, hr2, updateItem, applyPatch]

/-- C8: with every enumerated file copied (no cancellation, no stream
error) and the item still Downloading at completion, the attempt returns
success with startExtraction = true and the caller marks the item
Completed. -/
theorem c8_all_copied_completes (env : Env) (k : String) (reg0 : Registry)
    (it0 : Item) (hc : env.configOk = true) (hr : env.rcloneOk = true)
    (hp : preflightRejects env.availableSpace env.gameSizeBytes = false)
    (hready : pollReady env = true) (hcont : env.contentsOk = true)
    (hne : env.mountContents.isEmpty = false)
    (hnb : ∀ i, env.cancelBefore i = false)
    (hrj : ∀ i, env.rejectsFile i = false)
    (hna : ∀ i, env.cancelAfter i = false) :
    (runMountDownload env k reg0 (some it0)).result = ⟨true, true⟩ ∧
    (runMountDownload env k reg0 (some it0)).result.startExtraction = true ∧
    (runMountDownload env k reg0 (some it0)).filesCompleted = env.files.length ∧
    (callerFinalize (runMountDownload env k reg0 (some it0)).result
        (runMountDownload env k reg0 (some it0)).queue).map (fun j => j.status) =
      some DStatus.Completed := by
  have hrun : runMountDownload env k reg0 (some it0) =
      copyLoop env k ((env.files.map (fun f => f.size)).sum) 0 env.files
        ⟨(if 0 < ((List.range env.files.length).map
              (fun i => (env.destSize i).getD 0)).sum then
            updateItemStatus (updateItemStatus (some it0) DStatus.Downloading 0 none)
              DStatus.Downloading
              (progressPct (((List.range env.files.length).map
                (fun i => (env.destSize i).getD 0)).sum)
                ((env.files.map (fun f => f.size)).sum)) none
          else updateItemStatus (some it0) DStatus.Downloading 0 none),
          regSet k env.attemptId reg0, 0, 0,
          ((List.range env.files.length).map (fun i => (env.destSize i).getD 0)).sum,
          regHas k reg0, pollIterations env * mountPollIntervalMs⟩ := by
    simp only [runMountDownload]
    rw [if_neg (by simp [hc]), if_neg (by simp [hr]), if_neg (by simp [hp]),
      if_neg (by simp [hready]), if_neg (by simp [hcont, hne])]
  have hq0 : (if 0 < ((List.range env.files.length).map
        (fun i => (env.destSize i).getD 0)).sum then
          updateItemStatus (updateItemStatus (some it0) DStatus.Downloading 0 none)
            DStatus.Downloading
            (progressPct (((List.range env.files.length).map
              (fun i => (env.destSize i).getD 0)).sum)
              ((env.files.map (fun f => f.size)).sum)) none
        else updateItemStatus (some it0) DStatus.Downloading 0 none).map
        (fun j => j.status) = some DStatus.Downloading := by
    split <;> simp [updateItemStatus, updateItem, applyPatch, statusPatch]
  have hres := copyLoop_all_resolve env k ((env.files.map (fun f => f.size)).sum)
    hnb hrj hna env.files 0
    ⟨(if 0 < ((List.range env.files.length).map
          (fun i => (env.destSize i).getD 0)).sum then
        updateItemStatus (updateItemStatus (some it0) DStatus.Downloading 0 none)
          DStatus.Downloading
          (progressPct (((List.range env.files.length).map
            (fun i => (env.destSize i).getD 0)).sum)
            ((env.files.map (fun f => f.size)).sum)) none
      else updateItemStatus (some it0) DStatus.Downloading 0 none),
      regSet k env.attemptId reg0, 0, 0,
      ((List.range env.files.length).map (fun i => (env.destSize i).getD 0)).sum,
      regHas k reg0, pollIterations env * mountPollIntervalMs⟩ hq0
  rw [hrun]
  refine ⟨hres.1, by rw [hres.1], by simpa using hres.2.1, ?_⟩
  apply callerFinalize_status
  · rw [hres.1]
  · rw [hres.2.2]
    rfl

/-- Concrete environment in which every stage succeeds. -/
def envC8 : Env :=
  { configOk := true, rcloneOk := true, availableSpace := some 100,
    gameSizeBytes := 4, readdirOk := fun _ => true,
    pollListing := fun _ => ["game.7z"], contentsOk := true,
    mountContents := ["game.7z"], files := [⟨"game.7z", 8⟩, ⟨"meta.txt", 2⟩],
    destSize := fun _ => none, cancelBefore := fun _ => false,
    rejectsFile := fun _ => false, rejectMsg := fun _ => "",
    cancelAfter := fun _ => false, attemptId := 1 }

/-- Witness for C8: the fully successful run signals extraction and the
caller marks the item Completed. -/
theorem c8_all_copied_completes_witness :
    envC8.configOk = true ∧ pollReady envC8 = true ∧
    (runMountDownload envC8 "Game-A" [] (some item0)).result = ⟨true, true⟩ := by
  refine ⟨rfl, by decide, ?_⟩
  exact (c8_all_copied_completes envC8 "Game-A" [] item0 rfl rfl rfl (by decide)
    rfl rfl (fun _ => rfl) (fun _ => rfl) (fun _ => rfl)).1

theorem keys_regDelete_sublist (k : String) (r : Registry) :
    ((regDelete k r).map Prod.fst).Sublist (r.map Prod.fst) :=
  List.Sublist.map Prod.fst (List.filter_sublist r)

theorem regHas_eq_false_iff (k : String) (r : Registry) :
    regHas k r = false ↔ k ∉ r.map Prod.fst := by
  simp only [regHas, List.any_eq_false, List.mem_map]
  constructor
  · rintro h ⟨e, he, hk⟩
    have := h e he
    simp [hk] at this
  · intro h e he
    simp only [decide_eq_true_eq]
    intro hk
    exact h ⟨e, he, hk⟩

theorem keysNodup_regDelete (k : String) (r : Registry)
    (h : (r.map Prod.fst).Nodup) : ((regDelete k r).map Prod.fst).Nodup :=
  h.sublist (keys_regDelete_sublist k r)

theorem keysNodup_regSet (k : String) (v : Nat) (r : Registry)
    (h : (r.map Prod.fst).Nodup) : ((regSet k v r).map Prod.fst).Nodup := by
  simp only [regSet, List.map_cons]
  refine List.Nodup.cons ?_ (keysNodup_regDelete k r h)
  exact (regHas_eq_false_iff k (regDelete k r)).mp (regHas_regDelete k r)

theorem copyLoop_registry (env : Env) (k : String) (t : Nat) :
    ∀ (rest : List FileDesc) (i : Nat) (s : LoopState),
      (copyLoop env k t i rest s).registry = s.reg ∨
      (copyLoop env k t i rest s).registry = regDelete k s.reg := by
  intro rest
  induction rest with
  | nil =>
    intro i s
    simp only [copyLoop]
    cases s.q with
    | none =>
      simp only [finalMismatch]
      split <;> simp
    | some it =>
      by_cases h : it.status = DStatus.Downloading
      · simp [h]
      · simp only [h, if_false, finalMismatch]
        split <;> simp
  | cons f rest ih =>
    intro i s
    simp only [copyLoop]
    split
    · simp
    · split
      · simp only [catchPath]
        split <;> simp
      · split
        · simp
        · exact ih (i + 1) _

theorem copyLoop_result_of_queue (env : Env) (k : String) (t : Nat) :
    ∀ (rest : List FileDesc) (i : Nat) (s1 s2 : LoopState),
      s1.q.map (fun j => j.status) = s2.q.map (fun j => j.status) →
      (copyLoop env k t i rest s1).result = (copyLoop env k t i rest s2).result := by
  intro rest
  induction rest with
  | nil =>
    intro i s1 s2 hmap
    rcases hq1 : s1.q with _ | it1 <;> rcases hq2 : s2.q with _ | it2
    · simp [copyLoop, hq1, hq2, finalMismatch]
    · rw [hq1, hq2] at hmap; simp at hmap
    · rw [hq1, hq2] at hmap; simp at hmap
    · rw [hq1, hq2] at hmap
      have hst : it1.status = it2.status := by simpa using hmap
      by_cases h : it2.status = DStatus.Downloading
      · simp [copyLoop, hq1, hq2, hst, h]
      · simp [copyLoop, hq1, hq2, hst, h, finalMismatch]
  | cons f rest ih =>
    intro i s1 s2 hmap
    have hdl : (match s1.q with
        | some it => decide (it.status = DStatus.Downloading)
        | none => false) =
        (match s2.q with
        | some it => decide (it.status = DStatus.Downloading)
        | none => false) := by
      rcases hq1 : s1.q with _ | it1 <;> rcases hq2 : s2.q with _ | it2
      · rfl
      · rw [hq1, hq2] at hmap; simp at hmap
      · rw [hq1, hq2] at hmap; simp at hmap
      · rw [hq1, hq2] at hmap
        have hst : it1.status = it2.status := by simpa using hmap
        simp [hst]
    have hmap2 : (updateItemStatus s1.q DStatus.Downloading
        (progressPct (s1.copied + (f.size - (env.destSize i).getD 0)) t)
        none).map (fun j => j.status) =
        (updateItemStatus s2.q DStatus.Downloading
          (progressPct (s2.copied + (f.size - (env.destSize i).getD 0)) t)
          none).map (fun j => j.status) := by
      rw [updateItemStatus_map_status, updateItemStatus_map_status]
      rcases hq1 : s1.q with _ | it1 <;> rcases hq2 : s2.q with _ | it2
      · rfl
      · rw [hq1, hq2] at hmap; simp at hmap
      · rw [hq1, hq2] at hmap; simp at hmap
      · rfl
    simp only [copyLoop]
    rw [← hdl]
    split
    · rfl
    · split
      · simp [catchPath]
      · split
        · rfl
        · exact ih (i + 1) _ _ hmap2

theorem runMountDownload_result_reg_indep (env : Env) (k : String)
    (q0 : Option Item) (reg0 reg1 : Registry) :
    (runMountDownload env k reg0 q0).result =
      (runMountDownload env k reg1 q0).result := by
  simp only [runMountDownload]
  split
  · rfl
  · split
    · rfl
    · split
      · rfl
      · split
        · rfl
        · split
          · rfl
          · exact copyLoop_result_of_queue env k _ env.files 0 _ _ rfl

/-- C3 counterexample: with an active registry entry for the key, a second
attempt for the same key does not fail fast: it starts its own mount and
transfer and succeeds, replacing the registry entry. -/
theorem c3_counterexample :
    regHas "Game-A" [("Game-A", 1)] = true ∧
    (runMountDownload envC8 "Game-A" [("Game-A", 1)] (some item0)).result =
      ⟨true, true⟩ ∧
    (runMountDownload envC8 "Game-A" [("Game-A", 1)] (some item0)).mountStarted =
      true ∧
    (runMountDownload envC8 "Game-A" [("Game-A", 1)] (some item0)).overwrote =
      true := by
  refine ⟨by decide, by decide, by decide, by decide⟩

/-- C3 amended: the active-download registry, being a map, holds at most
one entry per item key, and the per-key state is preserved by every
attempt; but starting a second attempt for a key that is already active is
not rejected: the attempt proceeds exactly as from an inactive registry
(same returned result), replacing the registry entry when it registers its
controller. -/
theorem c3_registry_discipline (env : Env) (k : String) (q0 : Option Item) :
    (∀ reg0 : Registry, (reg0.map Prod.fst).Nodup →
      (((runMountDownload env k reg0 q0).registry).map Prod.fst).Nodup) ∧
    (∀ reg0 reg1 : Registry,
      (runMountDownload env k reg0 q0).result =
        (runMountDownload env k reg1 q0).result) := by
  constructor
  · intro reg0 hnd
    simp only [runMountDownload]
    split
    · exact hnd
    · split
      · exact hnd
      · split
        · exact hnd
        · split
          · simp only [catchPath]
            split
            · exact keysNodup_regDelete k reg0 hnd
            · exact hnd
          · split
            · exact hnd
            · rcases copyLoop_registry env k _ env.files 0
                ⟨_, regSet k env.attemptId reg0, 0, 0, _, regHas k reg0, _⟩ with
                h | h
            
              · rw [h]
                exact keysNodup_regSet k env.attemptId reg0 hnd
              · rw [h]
                exact keysNodup_regDelete k _ (keysNodup_regSet k env.attemptId reg0 hnd)
  · intro reg0 reg1
    exact runMountDownload_result_reg_indep env k q0 reg0 reg1

/-- Witness for the amended C3 at a concrete environment and registries. -/
theorem c3_registry_discipline_witness :
    (([("Game-A", 1)] : Registry).map Prod.fst).Nodup ∧
    (((runMountDownload envC8 "Game-A" [("Game-A", 1)] (some item0)).registry).map
      Prod.fst).Nodup ∧
    (runMountDownload envC8 "Game-A" [("Game-A", 1)] (some item0)).result =
      (runMountDownload envC8 "Game-A" [] (some item0)).result := by
  have h := c3_registry_discipline envC8 "Game-A" (some item0)
  exact ⟨by decide, h.1 [("Game-A", 1)] (by decide), h.2 [("Game-A", 1)] []⟩

/-- C2: the cancellation token is consulted before each file and on every
streamed chunk.  A token observed before a file ends the loop at once with
the registry entry removed and nothing of that file copied; a token
tripping at chunk kk destroys both streams there, leaves exactly the bytes
of the earlier chunks written (the current file unfinished, partial bytes
kept on disk), and the promise rejects, which exits the per-file loop
through the catch block and returns control with the current file not
counted as completed. -/
theorem c2_cancel_checks (chunks : List (List Nat)) (cancel : Nat → Bool)
    (kk : Nat) (hk : kk < chunks.length)
    (hbefore : ∀ j, j < kk → cancel j = false) (hck : cancel kk = true)
    (env : Env) (k : String) (t i : Nat) (f : FileDesc) (rest : List FileDesc)
    (s : LoopState) (it : Item) (hq : s.q = some it)
    (hst : it.status = DStatus.Downloading) :
    copyChunks cancel 0 chunks = ⟨(chunks.take kk).flatten, true, false⟩ ∧
    copyResult (copyChunks cancel 0 chunks) = CopyResult.rejected ∧
    (env.cancelBefore i = true →
      copyLoop env k t i (f :: rest) s =
        ⟨⟨false, false⟩, s.q, regDelete k s.reg, s.teardowns, true, s.ov,
          s.completed, s.waited⟩) ∧
    (env.cancelBefore i = false → env.rejectsFile i = true →
      (copyLoop env k t i (f :: rest) s).result = ⟨false, false⟩ ∧
      (copyLoop env k t i (f :: rest) s).filesCompleted = s.completed ∧
      (copyLoop env k t i (f :: rest) s).teardowns = s.teardowns + 1) := by
  have hchunks : copyChunks cancel 0 chunks = ⟨(chunks.take kk).flatten, true, false⟩ := by
    refine copyChunks_cancel_at cancel kk 0 chunks hk ?_ ?_
    · intro j hj
      simpa using hbefore j hj
    · simpa using hck
  refine ⟨hchunks, by rw [hchunks]; simp [copyResult], ?_, ?_⟩
  · intro hcb
    simp [copyLoop, hq, hst, hcb]
  · intro hcb hrj
    have hred : copyLoop env k t i (f :: rest) s =
        catchPath k (env.rejectMsg i) s.reg s.q s.teardowns s.ov s.completed
          s.waited := by
      simp [copyLoop, hq, hst, hcb, hrj]
    rw [hred]
    exact ⟨rfl, rfl, rfl⟩

/-- An item in the Downloading state, for concrete loop evaluations. -/
def itemDl : Item := ⟨DStatus.Downloading, 10, none, some 9, none, none, none⟩

/-- Witness for C2: a 3-chunk copy whose token trips at the second chunk
writes exactly the first chunk and never finishes. -/
theorem c2_cancel_checks_witness :
    (1 : Nat) < ([[5], [6], [7]] : List (List Nat)).length ∧
    copyChunks (fun j => decide (1 ≤ j)) 0 [[5], [6], [7]] =
      ⟨[5], true, false⟩ := by
  refine ⟨by decide, ?_⟩
  have h := c2_cancel_checks [[5], [6], [7]] (fun j => decide (1 ≤ j)) 1
    (by decide)
    (fun j hj => by
      have hj0 : j = 0 := Nat.lt_one_iff.mp hj
      subst hj0; rfl)
    rfl envC8 "Game-A" 10 0 ⟨"game.7z", 8⟩ []
    ⟨some itemDl, [], 0, 0, 0, false, 0⟩ itemDl rfl rfl
  simpa using h.1

/-- A filesystem entry under the mounted root, as seen through readdir with
file types: a file with its stat size, or a directory with its entries. -/
inductive FsEntry
  | file (name : String) (size : Nat)
  | dir (name : String) (children : List FsEntry)

/-- Node path.join for an already normalized directory and a plain entry
name. -/
def pjoin (a b : String) : String := a ++ "/" ++ b

/-- JavaScript String.replace with a plain-string pattern and an empty
replacement: removes the first occurrence of the pattern. -/
def replaceFirstAux : List Char → List Char → List Char
  | [], _ => []
  | c :: rest, pat =>
    if List.isPrefixOf pat (c :: rest) then List.drop pat.length (c :: rest)
    else c :: replaceFirstAux rest pat

def replaceFirstStr (s pat : String) : String :=
  (replaceFirstAux s.toList pat.toList).asString

/-- The relative path computed by getFilesRecursively (lines 706 to 710 and
the fallback at line 718): the full path with the traversal root stripped
under either separator convention, falling back to the entry name when the
result is empty. -/
def relPathOf (dirPath base name : String) : String :=
  let full := pjoin dirPath name
  let r := replaceFirstStr (replaceFirstStr (replaceFirstStr full
    (base ++ "/")) (base ++ "\x5c")) base
  if r = "" then name else r

mutual

/-- getFilesRecursively on one entry (lines 705 to 722): directories are
recursed into with the original base, files are stat-ed and emitted. -/
def filesOfEntry (dirPath base : String) : FsEntry → List FileDesc
  | FsEntry.file name size => [⟨relPathOf dirPath base name, size⟩]
  | FsEntry.dir name children => filesOfList (pjoin dirPath name) base children

/-- getFilesRecursively over the readdir entries of one directory, in
enumeration order. -/
def filesOfList (dirPath base : String) : List FsEntry → List FileDesc
  | [] => []
  | e :: rest => filesOfEntry dirPath base e ++ filesOfList dirPath base rest

end

/-- getFilesRecursively from the mount root (line 696): the initial call
passes no base, so the root is both the directory and the base. -/
def getFilesRecursively (root : String) (entries : List FsEntry) :
    List FileDesc :=
  filesOfList root root entries

mutual

/-- Every entry name in the tree is non-empty (a filesystem guarantee for
readdir results). -/
def namesOkEntry : FsEntry → Bool
  | FsEntry.file name _ => decide (¬ name = "")
  | FsEntry.dir name children => decide (¬ name = "") && namesOkList children

def namesOkList : List FsEntry → Bool
  | [] => true
  | e :: rest => namesOkEntry e && namesOkList rest

end

theorem relPathOf_ne_empty (dirPath base name : String) (h : ¬ name = "") :
    ¬ relPathOf dirPath base name = "" := by
  simp only [relPathOf]
  split
  · exact h
  · assumption

mutual

theorem filesOfEntry_paths_ne_empty (dirPath base : String) (e : FsEntry)
    (h : namesOkEntry e = true) :
    ∀ fd ∈ filesOfEntry dirPath base e, ¬ fd.relativePath = "" := by
  cases e with
  | file name size =>
    intro fd hfd
    simp only [filesOfEntry, List.mem_singleton] at hfd
    subst hfd
    exact relPathOf_ne_empty dirPath base name (by simpa [namesOkEntry] using h)
  | dir name children =>
    intro fd hfd
    simp only [namesOkEntry, Bool.and_eq_true] at h
    exact filesOfList_paths_ne_empty (pjoin dirPath name) base children h.2 fd
      (by simpa [filesOfEntry] using hfd)

theorem filesOfList_paths_ne_empty (dirPath base : String)
    (es : List FsEntry) (h : namesOkList es = true) :
    ∀ fd ∈ filesOfList dirPath base es, ¬ fd.relativePath = "" := by
  cases es with
  | nil => intro fd hfd; simp [filesOfList] at hfd
  | cons e rest =>
    intro fd hfd
    simp only [namesOkList, Bool.and_eq_true] at h
    simp only [filesOfList, List.mem_append] at hfd
    rcases hfd with hfd | hfd
    · exact filesOfEntry_paths_ne_empty dirPath base e h.1 fd hfd
    · exact filesOfList_paths_ne_empty dirPath base rest h.2 fd hfd

end

/-- C10: every file descriptor produced by the recursive enumeration of a
mounted root whose entry names are non-empty has a non-empty relative
path. -/
theorem c10_relative_paths_nonempty (root : String) (entries : List FsEntry)
    (h : namesOkList entries = true) :
    ∀ fd ∈ getFilesRecursively root entries, ¬ fd.relativePath = "" := by
  intro fd hfd
  exact filesOfList_paths_ne_empty root root entries h fd hfd

/-- Witness for C10 on a concrete two-level tree. -/
theorem c10_relative_paths_nonempty_witness :
    namesOkList [FsEntry.file "game.7z" 8,
      FsEntry.dir "extra" [FsEntry.file "readme.txt" 2]] = true ∧
    ∀ fd ∈ getFilesRecursively "/tmp/mnt"
      [FsEntry.file "game.7z" 8,
        FsEntry.dir "extra" [FsEntry.file "readme.txt" 2]],
      ¬ fd.relativePath = "" := by
  refine ⟨by decide, ?_⟩
  exact c10_relative_paths_nonempty "/tmp/mnt"
    [FsEntry.file "game.7z" 8,
      FsEntry.dir "extra" [FsEntry.file "readme.txt" 2]] (by decide)
